import Mathlib

/-!
Shallow embedding of the MLIR SCF dialect operations and their
canonicalization patterns, translated from the C++ implementation file
(SCF.cpp, shipped in this repository as
mlir/lib/Target/IRDLToCpp/Templates/PerOperationDef.txt).

SSA values are represented by numeric identifiers; an environment maps each
value to the facts the patterns can observe about it through `matchPattern`
(constant integer attribute, defining arith.addi operation, or nothing).
Machine integers (llvm::APInt) are a bit width together with raw bits taken
modulo 2 ^ width; all arithmetic is explicit modular arithmetic.
-/

/-- An SSA value, identified by a numeric id. -/
abbrev Value := Nat

/-- An llvm::APInt: a bit width together with the raw bits (mod 2 ^ width). -/
structure APIntM where
  width : Nat
  bits : Nat
deriving DecidableEq

/-- The signed interpretation of raw bits at a given width
(llvm::APInt::getSExtValue). -/
def sExtValue (w n : Nat) : Int :=
  if n % 2 ^ w < 2 ^ (w - 1) then (n % 2 ^ w : Int) else (n % 2 ^ w : Int) - 2 ^ w

/-- Wrapping subtraction of raw bits at width w (llvm::APInt::operator-). -/
def subWrap (w a b : Nat) : Nat :=
  (a % 2 ^ w + (2 ^ w - b % 2 ^ w)) % 2 ^ w

/-- What a pattern can observe about the operation defining a value:
a constant integer attribute, an arith.addi with two operands, or an
operation the patterns do not inspect. -/
inductive VDef where
  | constInt (a : APIntM)
  | addi (lhs rhs : Value)
  | other
deriving DecidableEq

/-- The observable IR context: facts about every value. -/
abbrev Env := Value → VDef

/-- matchPattern(v, m_Constant(&attr)) for integer attributes. -/
def mConstant (env : Env) (v : Value) : Option APIntM :=
  match env v with
  | .constInt a => some a
  | _ => none

/-- Util function that tries to compute a constant diff between u and l
(computeConstDiff in SCF.cpp).  Two constants are subtracted with wrapping
APInt subtraction and reinterpreted as a signed value; otherwise a pattern
match for u = l + c or u = c + l extracts the literal c.  Returns none when
the difference is dynamic.  (APInt subtraction requires equal widths, which
the scf.for verifier guarantees for the two bounds; on mismatched widths we
conservatively return none where the C++ would assert.) -/
def computeConstDiff (env : Env) (l u : Value) : Option Int :=
  match mConstant env l, mConstant env u with
  | some clb, some cub =>
      if clb.width = cub.width then
        some (sExtValue clb.width (subWrap clb.width cub.bits clb.bits))
      else none
  | _, _ =>
      match env u with
      | .addi x y =>
          (if x = l then (mConstant env y).map (fun d => sExtValue d.width d.bits)
           else none).orElse
            (fun _ =>
              if y = l then (mConstant env x).map (fun d => sExtValue d.width d.bits)
              else none)
      | _ => none

/-- A generic operation inside a block: a kind tag, the values it produces
and the values it consumes. -/
structure Opn where
  kind : Nat
  results : List Value
  operands : List Value
deriving DecidableEq

/-- A single-block region: entry block arguments, the non-terminator
operations in order, and the operands of the block terminator. -/
structure Blk where
  args : List Value
  ops : List Opn
  termOperands : List Value
deriving DecidableEq

/-- An scf.for operation: bounds and step operands, the iter_args init
operands, and the single-block body region whose block arguments are the
induction variable followed by the region iter_args. -/
structure ForOp where
  lowerBound : Value
  upperBound : Value
  step : Value
  initArgs : List Value
  region : Blk
deriving DecidableEq

/-- First-match association-list lookup (models llvm::DenseMap::find and
IRMapping::lookup over the keys inserted so far). -/
def alookup [DecidableEq κ] (k : κ) : List (κ × ν) → Option ν
  | [] => none
  | (q, v) :: es => if q = k then some v else alookup k es

/-- Index of the first element satisfying p, if any. -/
def findIdxA (p : α → Bool) : List α → Option Nat
  | [] => none
  | a :: as => if p a then some 0 else (findIdxA p as).map (· + 1)

/-- Substitution determined by an association list of (old, new) pairs;
values without an entry are unchanged.  This models the block-argument
remapping performed by PatternRewriter::inlineBlockBefore. -/
def substOfPairs (ps : List (Value × Value)) (v : Value) : Value :=
  (alookup v ps).getD v

/-- Apply a value substitution to the operands of an operation. -/
def substOp (f : Value → Value) (o : Opn) : Opn :=
  { o with operands := o.operands.map f }

/-- replaceOpWithRegion in SCF.cpp: inline the single-block region before the
operation, remapping its block arguments to blockArgs, and use the (already
remapped) operands of the block terminator as the replacement results. -/
def replaceOpWithRegion (b : Blk) (blockArgs : List Value) : List Opn × List Value :=
  let f := substOfPairs (b.args.zip blockArgs)
  (b.ops.map (substOp f), b.termOperands.map f)

/-- LoopLikeOpInterface::isDefinedOutsideOfLoop for the flat single-block
body: the value is neither a block argument of the body nor a result of an
operation in the body. -/
def isDefinedOutsideOfLoop (op : ForOp) (v : Value) : Bool :=
  !(op.region.args.contains v) && op.region.ops.all (fun o => !(o.results.contains v))

/-- Outcome of running a ForOp rewrite pattern: the loop erased with
replacement values for its results, the loop body inlined into the parent
block with replacement values, or no match. -/
inductive ForRewrite where
  | erased (replacements : List Value)
  | inlinedBody (newOps : List Opn) (replacements : List Value)
  | noMatch
deriving DecidableEq

/-- SimplifyTrivialLoops::matchAndRewrite, translated branch by branch:
identical bounds or non-positive computed diff erase the loop in favour of
the inits; constant step sge the diff inlines the single iteration via
replaceOpWithRegion; an empty body whose yields are defined outside the loop
is erased in favour of the yielded values. -/
def simplifyTrivialLoops (env : Env) (op : ForOp) : ForRewrite :=
  if op.lowerBound = op.upperBound then .erased op.initArgs
  else
    match computeConstDiff env op.lowerBound op.upperBound with
    | none => .noMatch
    | some d =>
      if d ≤ 0 then .erased op.initArgs
      else
        match mConstant env op.step with
        | none => .noMatch
        | some s =>
          if d ≤ sExtValue s.width s.bits then
            let pr := replaceOpWithRegion op.region (op.lowerBound :: op.initArgs)
            .inlinedBody pr.1 pr.2
          else if op.region.ops = [] then
            if op.region.termOperands.all (fun v => isDefinedOutsideOfLoop op v) then
              .erased op.region.termOperands
            else .noMatch
          else .noMatch

/-- matchPattern(v, m_Constant(&boolAttr)): a constant of bit width 1,
read as a boolean. -/
def mBoolConstant (env : Env) (v : Value) : Option Bool :=
  match env v with
  | .constInt a => if a.width = 1 then some (a.bits % 2 = 1) else none
  | _ => none

/-- An scf.if operation with a then and an else region, viewed through what
ReplaceIfYieldWithConditionOrValue and RemoveUnusedResults inspect: the
condition, the operands of the two region terminators, and whether each
result has uses. -/
structure IfOpM where
  condition : Value
  thenYields : List Value
  elseYields : List Value
  resultHasUses : List Bool
deriving DecidableEq

/-- Per-result-position outcome of ReplaceIfYieldWithConditionOrValue:
the result left alone, its uses replaced by a common yielded value, by the
branch condition, or by the negation of the condition materialized as
arith.xori of the condition with the constant 1. -/
inductive IfResultAction where
  | keep
  | replacedBy (v : Value)
  | replacedByCond
  | replacedByXorCondOne
deriving DecidableEq

/-- The per-position body of the loop in
ReplaceIfYieldWithConditionOrValue::matchAndRewrite. -/
def ifYieldAction (env : Env) (t f : Value) (hasUses : Bool) : IfResultAction :=
  if t = f then
    if hasUses then .replacedBy t else .keep
  else
    match mBoolConstant env t, mBoolConstant env f with
    | some tv, some fv =>
        if !tv && fv then (if hasUses then .replacedByXorCondOne else .keep)
        else if tv && !fv then (if hasUses then .replacedByCond else .keep)
        else .keep
    | _, _ => .keep

/-- zipWith over three lists, truncating to the shortest (llvm::zip). -/
def zipWith3M (f : α → β → γ → δ) : List α → List β → List γ → List δ
  | a :: as, b :: bs, c :: cs => f a b c :: zipWith3M f as bs cs
  | _, _, _ => []

/-- ReplaceIfYieldWithConditionOrValue::matchAndRewrite: fails on an if
without results, otherwise computes the per-position actions and succeeds
exactly when some position changed. -/
def replaceIfYieldWithConditionOrValue (env : Env) (op : IfOpM) :
    Option (List IfResultAction) :=
  if op.resultHasUses.length = 0 then none
  else if (zipWith3M (ifYieldAction env) op.thenYields op.elseYields
      op.resultHasUses).any (fun a => a ≠ .keep) then
    some (zipWith3M (ifYieldAction env) op.thenYields op.elseYields op.resultHasUses)
  else none

/-- RemoveUnusedResults::matchAndRewrite: when a strict subset of results
has uses, rebuild the if with only the used result positions.  The outcome
is (then yields kept, else yields kept, per-old-position mapping to the
position in the new if, none for dropped results). -/
def removeUnusedResults (op : IfOpM) : Option (List Value × List Value × List (Option Nat)) :=
  let n := op.resultHasUses.length
  let usedIdx := (List.range n).filter (fun i => op.resultHasUses.getD i false)
  if usedIdx.length = n then none
  else
    some (usedIdx.map (fun i => op.thenYields.getD i 0),
          usedIdx.map (fun i => op.elseYields.getD i 0),
          (List.range n).map (fun i => findIdxA (fun j => j = i) usedIdx))

/-- getConstantIntValue: the signed value of a matched constant. -/
def getConstantIntValue (env : Env) (v : Value) : Option Int :=
  (mConstant env v).map (fun a => sExtValue a.width a.bits)

/-- An scf.index_switch operation: the scrutinee operand, the case values,
one single-block region per case, and the default region. -/
structure IndexSwitchOpM where
  arg : Value
  cases : List Int
  caseRegions : List Blk
  defaultRegion : Blk
deriving DecidableEq

/-- FoldConstantCase::matchAndRewrite: on a constant scrutinee, select the
first case region whose value matches (or the default region), and replace
the operation with that region's operations inlined and its terminator
operands as results.  Case regions have no block arguments, so no value
remapping happens. -/
def foldConstantCase (env : Env) (op : IndexSwitchOpM) : Option (List Opn × List Value) :=
  match getConstantIntValue env op.arg with
  | none => none
  | some cst =>
      let r :=
        match findIdxA (fun c => c = cst) op.cases with
        | some i => op.caseRegions.getD i op.defaultRegion
        | none => op.defaultRegion
      some (r.ops, r.termOperands)

/-- A point the control-flow query is asked from: the parent operation or
one of the operation's regions (RegionBranchPoint). -/
inductive RegionPoint where
  | parent
  | region (i : Nat)
deriving DecidableEq

/-- A control-flow successor reported by getSuccessorRegions: one of the
operation's regions or the parent operation's results (RegionSuccessor). -/
inductive RegionSucc where
  | region (i : Nat)
  | parentResults
deriving DecidableEq

/-- ForOp::getSuccessorRegions: both the parent and the body may branch into
the body or to the results, so the same successor list is reported for every
predecessor point. -/
def forOpGetSuccessorRegions (_ : RegionPoint) : List RegionSucc :=
  [.region 0, .parentResults]

/-- ForallOp::getSuccessorRegions: the parent branches into the body; the
body branches only to the results, never back into itself. -/
def forallOpGetSuccessorRegions (p : RegionPoint) : List RegionSucc :=
  match p with
  | .parent => [.region 0]
  | .region _ => [.parentResults]

/-- WhileOp::getSuccessorRegions, with the before region as region 0 and the
after region as region 1: the parent branches to before, after branches back
to before, and before branches to the results or to after. -/
def whileOpGetSuccessorRegions (p : RegionPoint) : List RegionSucc :=
  match p with
  | .parent => [.region 0]
  | .region 1 => [.region 0]
  | .region _ => [.parentResults, .region 1]

/-- The inner scf.if inspected by CombineNestedIfs: its condition, result
values, then-block non-terminator operations and yield, and its optional
else block (operations and yield). -/
structure InnerIf where
  condition : Value
  results : List Value
  thenOps : List Opn
  thenYield : List Value
  hasElse : Bool
  elseOps : List Opn
  elseYield : List Value
deriving DecidableEq

/-- A non-terminator operation in the outer then block: either a plain
operation or a nested scf.if. -/
inductive IfBodyOp where
  | plain (o : Opn)
  | nested (i : InnerIf)
deriving DecidableEq

/-- The outer scf.if inspected by CombineNestedIfs. -/
structure OuterIf where
  condition : Value
  numResults : Nat
  thenOps : List IfBodyOp
  thenYield : List Value
  hasElse : Bool
  elseOps : List Opn
  elseYield : List Value
deriving DecidableEq

/-- Whether a value is defined inside the outer then region (Value::
getParentRegion comparison in CombineNestedIfs): it is a result of one of
the then-block operations. -/
def definedInThenRegion (outer : OuterIf) (v : Value) : Bool :=
  outer.thenOps.any fun b =>
    match b with
    | .plain o => o.results.contains v
    | .nested i => i.results.contains v

/-- A replacement for one result of the outer if after CombineNestedIfs:
the corresponding result of the new combined if, or an arith.select over the
outer condition. -/
inductive RepVal where
  | ifResult (i : Nat)
  | select (c tv fv : Value)
deriving DecidableEq

/-- The loop over the outer then-yield operands in CombineNestedIfs:
operands produced by the nested if are replaced by the nested then-yield
(requiring the nested else-yield to agree with the outer else-yield, else
match failure); other operands must not be defined in the outer then region
and their positions are recorded for the select upgrade.  Returns the
rewritten then-yield together with the recorded positions. -/
def processNestedYields (inner : InnerIf) (dIT : Value → Bool) (ey : List Value) :
    List Value → Nat → Option (List Value × List Nat)
  | [], _ => some ([], [])
  | t :: ts, i =>
    if inner.results.contains t then
      let j := (findIdxA (fun r => r = t) inner.results).getD 0
      if inner.elseYield.getD j 0 = ey.getD i 0 then
        match processNestedYields inner dIT ey ts (i + 1) with
        | some (ys, sel) => some (inner.thenYield.getD j 0 :: ys, sel)
        | none => none
      else none
    else if dIT t then none
    else
      match processNestedYields inner dIT ey ts (i + 1) with
      | some (ys, sel) => some (t :: ys, i :: sel)
      | none => none

/-- Result of CombineNestedIfs: the two conditions feeding the new
arith.andi guard, the body and yields of the combined if, and the
replacement for each result of the outer if. -/
structure NestedIfOut where
  cond1 : Value
  cond2 : Value
  thenOps : List Opn
  thenYield : List Value
  elseYield : List Value
  replacements : List RepVal
deriving DecidableEq

/-- CombineNestedIfs::matchAndRewrite: the outer then block must contain
exactly the nested if, both else blocks (when present) must be empty apart
from their terminator, and every outer then-yield operand must pass
processNestedYields; the combined if is guarded by andi of both conditions
and upgraded positions are replaced by selects on the outer condition. -/
def combineNestedIfs (outer : OuterIf) : Option NestedIfOut :=
  match outer.thenOps with
  | [IfBodyOp.nested inner] =>
    if outer.hasElse ∧ outer.elseOps ≠ [] then none
    else if inner.hasElse ∧ inner.elseOps ≠ [] then none
    else
      let ey := if outer.hasElse then outer.elseYield else []
      match processNestedYields inner (definedInThenRegion outer) ey outer.thenYield 0 with
      | none => none
      | some (ty, sels) =>
          some { cond1 := outer.condition, cond2 := inner.condition,
                 thenOps := inner.thenOps, thenYield := ty, elseYield := ey,
                 replacements :=
                   (List.range outer.numResults).map fun i =>
                     if sels.contains i then
                       RepVal.select outer.condition (ty.getD i 0) (ey.getD i 0)
                     else RepVal.ifResult i }
  | _ => none

/-- An scf.while operation viewed through what
RemoveLoopInvariantArgsFromBeforeBlock inspects: the init operands, the
before-block arguments, the forwarded operands of the scf.condition
terminator, the after-block arguments, and the operands of the after-block
scf.yield terminator. -/
structure WhileOpM where
  inits : List Value
  beforeArgs : List Value
  condArgs : List Value
  afterArgs : List Value
  yields : List Value
deriving DecidableEq

/-- The invariance test applied at index i by
RemoveLoopInvariantArgsFromBeforeBlock: the i-th yield operand equals the
i-th init operand, or it is the k-th after-block argument and the k-th
scf.condition operand equals the i-th before-block argument or the i-th
init operand. -/
def whileInvariantAt (w : WhileOpM) (i : Nat) : Bool :=
  let initVal := w.inits.getD i 0
  let y := w.yields.getD i 0
  (y = initVal) ||
    (match findIdxA (fun a => a = y) w.afterArgs with
     | some k =>
         let c := w.condArgs.getD k 0
         c = w.beforeArgs.getD i 0 || c = initVal
     | none => false)

/-- RemoveLoopInvariantArgsFromBeforeBlock::matchAndRewrite: fails unless
some index passes the invariance test; otherwise rebuilds the loop keeping
only the non-invariant indices.  The outcome is (kept init operands, kept
yield operands, per-before-argument replacement: the init value for pruned
invariant arguments, none for surviving ones). -/
def removeLoopInvariantArgsFromBeforeBlock (w : WhileOpM) :
    Option (List Value × List Value × List (Option Value)) :=
  let n := min w.inits.length w.yields.length
  if (List.range n).all (fun i => !(whileInvariantAt w i)) then none
  else
    let kept := (List.range n).filter (fun i => !(whileInvariantAt w i))
    some (kept.map (fun i => w.inits.getD i 0),
          kept.map (fun i => w.yields.getD i 0),
          (List.range w.beforeArgs.length).map fun i =>
            if i < n ∧ whileInvariantAt w i then some (w.inits.getD i 0) else none)

/-- One iter_arg position of an scf.for as inspected by ForOpIterArgsFolder:
the init operand, the region iter argument, the operation result, the
yielded value, and whether the argument and result have no uses. -/
structure IterEntry where
  init : Value
  arg : Value
  result : Value
  yielded : Value
  argUnused : Bool
  resultUnused : Bool
deriving DecidableEq

/-- The forwarding test of ForOpIterArgsFolder: the region argument is
yielded back unchanged, the init is yielded, or both the argument and the
result are unused. -/
def forwardedEntry (e : IterEntry) : Bool :=
  (e.arg = e.yielded) || (e.init = e.yielded) || (e.argUnused && e.resultUnused)

/-- Fate of one iter_arg position under ForOpIterArgsFolder: dropped with
the result replaced by the init, dropped with the argument and result uses
redirected to a surviving argument and result, or kept in the new loop. -/
inductive IterAction where
  | forwardedInit (v : Value)
  | duplicate (a r : Value)
  | kept
deriving DecidableEq

/-- The memo of ForOpIterArgsFolder: (init, yielded) pairs mapped to the
(argument, result) of the first kept position carrying that pair. -/
abbrev IterMemo := List ((Value × Value) × (Value × Value))

/-- The main loop of ForOpIterArgsFolder::matchAndRewrite: forwarded
positions are dropped in favour of their init; a position whose (init,
yielded) pair is already memoized is dropped with uses redirected to the
memoized argument and result; remaining positions are memoized and kept. -/
def iterFold : List IterEntry → IterMemo → List IterAction
  | [], _ => []
  | e :: es, memo =>
    if forwardedEntry e then IterAction.forwardedInit e.init :: iterFold es memo
    else
      match alookup (e.init, e.yielded) memo with
      | some p => IterAction.duplicate p.1 p.2 :: iterFold es memo
      | none =>
          IterAction.kept :: iterFold es (((e.init, e.yielded), (e.arg, e.result)) :: memo)

/-- The memo state after the main loop of ForOpIterArgsFolder has processed
a list of positions. -/
def iterMemoAfter : List IterEntry → IterMemo → IterMemo
  | [], memo => memo
  | e :: es, memo =>
    if forwardedEntry e then iterMemoAfter es memo
    else
      match alookup (e.init, e.yielded) memo with
      | some _ => iterMemoAfter es memo
      | none => iterMemoAfter es (((e.init, e.yielded), (e.arg, e.result)) :: memo)

/-- ForOpIterArgsFolder::matchAndRewrite: compute the fate of every
iter_arg position; succeed exactly when some position is dropped. -/
def forOpIterArgsFolder (es : List IterEntry) : Option (List IterAction) :=
  let acts := iterFold es []
  if acts.all (fun a => a = IterAction.kept) then none else some acts

/-- The bound, step, init and induction-variable data of one scf.parallel
operation (MergeNestedParallelLoops reads nothing else of the inner loop
except its body, carried separately). -/
structure PLoop where
  lowerBound : List Value
  upperBound : List Value
  step : List Value
  initVals : List Value
  bodyArgs : List Value
deriving DecidableEq

/-- A non-terminator operation in the outer scf.parallel body: a plain
operation or a nested scf.parallel with its body operations. -/
inductive PBodyOp where
  | plain (o : Opn)
  | nestedParallel (p : PLoop) (innerOps : List Opn)
deriving DecidableEq

/-- The outer scf.parallel as inspected by MergeNestedParallelLoops. -/
structure POuterLoop where
  loop : PLoop
  bodyOps : List PBodyOp
deriving DecidableEq

/-- MergeNestedParallelLoops::matchAndRewrite: the outer body must contain
exactly one nested parallel loop, none of the inner bounds or steps may be
an outer induction variable, and neither loop may carry reductions; the
fused loop concatenates the bounds and steps of both loops. -/
def mergeNestedParallelLoops (outer : POuterLoop) :
    Option (List Value × List Value × List Value) :=
  match outer.bodyOps with
  | [PBodyOp.nestedParallel inner _] =>
    if outer.loop.bodyArgs.any (fun v =>
        inner.lowerBound.contains v || inner.upperBound.contains v ||
          inner.step.contains v) then none
    else if !outer.loop.initVals.isEmpty || !inner.initVals.isEmpty then none
    else
      some (outer.loop.lowerBound ++ inner.lowerBound,
            outer.loop.upperBound ++ inner.upperBound,
            outer.loop.step ++ inner.step)
  | _ => none

/-! ### Helper lemmas about the substitution and lookup helpers -/

theorem alookup_cons [DecidableEq κ] (q k : κ) (v : ν) (es : List (κ × ν)) :
    alookup k ((q, v) :: es) = if q = k then some v else alookup k es := rfl

theorem substOfPairs_not_mem :
    ∀ (as bs : List Value) (v : Value), v ∉ as → substOfPairs (as.zip bs) v = v
  | [], _, _, _ => rfl
  | _ :: _, [], _, _ => rfl
  | a :: as, b :: bs, v, h => by
      have ha : a ≠ v := fun e => h (e ▸ List.mem_cons_self a as)
      simp only [List.zip_cons_cons, substOfPairs, alookup_cons, if_neg ha]
      exact substOfPairs_not_mem as bs v (fun hm => h (List.mem_cons_of_mem a hm))

theorem substOfPairs_get :
    ∀ (as bs : List Value), as.Nodup →
      ∀ (i : Nat) (x y : Value), as.get? i = some x → bs.get? i = some y →
        substOfPairs (as.zip bs) x = y
  | [], _, _, i, _, _, hx, _ => by simp at hx
  | _ :: _, [], _, i, _, _, _, hy => by simp at hy
  | a :: as, b :: bs, hnd, 0, x, y, hx, hy => by
      obtain rfl : a = x := by simpa using hx
      obtain rfl : b = y := by simpa using hy
      simp [substOfPairs, List.zip_cons_cons, alookup_cons]
  | a :: as, b :: bs, hnd, i + 1, x, y, hx, hy => by
      rw [List.get?_cons_succ] at hx hy
      have hmem : x ∈ as := List.get?_mem hx
      have ha : a ≠ x := fun e => (List.nodup_cons.mp hnd).1 (e ▸ hmem)
      simp only [List.zip_cons_cons, substOfPairs, alookup_cons, if_neg ha]
      exact substOfPairs_get as bs (List.nodup_cons.mp hnd).2 i x y hx hy

/-! ### Claim C1: zero-trip-count scf.for elimination -/

/-- Environment of the scenario for i = 3 to 3 step 1 iter(x = 5): value 0
is the shared constant 3 used as both bounds, value 2 is the constant 5 fed
to the iter_arg, value 3 is the constant step 1. -/
def c1Env : Env := fun v =>
  match v with
  | 0 => VDef.constInt ⟨8, 3⟩
  | 2 => VDef.constInt ⟨8, 5⟩
  | 3 => VDef.constInt ⟨8, 1⟩
  | _ => VDef.other

/-- The loop for i = 3 to 3 step 1 iter(x = 5) yield x: both bounds are the
same SSA value 0; the body yields its own iter argument. -/
def c1For : ForOp :=
  { lowerBound := 0, upperBound := 0, step := 3, initArgs := [2],
    region := { args := [10, 11], ops := [], termOperands := [11] } }

/-- Claim C1 (amended): an scf.for whose bounds are the same SSA value, or
whose computeConstDiff (wrapping signed subtraction at the bound bit width)
yields a non-positive difference, is erased by SimplifyTrivialLoops with
every result replaced by the corresponding init operand; in particular the
loop for i = 3 to 3 step 1 iter(x = 5) is replaced by the value 5 (the
constant value 2 in the environment). -/
theorem c1_trivial_loop_erased (env : Env) (op : ForOp) :
    (op.lowerBound = op.upperBound →
      simplifyTrivialLoops env op = ForRewrite.erased op.initArgs)
    ∧ (∀ d : Int, computeConstDiff env op.lowerBound op.upperBound = some d → d ≤ 0 →
        simplifyTrivialLoops env op = ForRewrite.erased op.initArgs)
    ∧ simplifyTrivialLoops c1Env c1For = ForRewrite.erased [2] := by
  refine ⟨fun h => by simp [simplifyTrivialLoops, h], fun d hd hle => ?_, by decide⟩
  by_cases h : op.lowerBound = op.upperBound
  · simp [simplifyTrivialLoops, h]
  · simp [simplifyTrivialLoops, h, hd, hle]

/-- Witness for c1_trivial_loop_erased at the concrete loop of the claim:
same-SSA-value bounds erase the loop in favour of its init. -/
theorem c1_trivial_loop_erased_witness :
    simplifyTrivialLoops c1Env c1For = ForRewrite.erased c1For.initArgs :=
  (c1_trivial_loop_erased c1Env c1For).1 rfl

/-- Environment refuting claim C1 as stated: the bounds are the i8 constants
127 (value 0) and -128 (raw bits 128, value 1), whose mathematical
difference is -255, zero-or-negative. -/
def c1CexEnv : Env := fun v =>
  match v with
  | 0 => VDef.constInt ⟨8, 127⟩
  | 1 => VDef.constInt ⟨8, 128⟩
  | _ => VDef.other

/-- A loop over those bounds with a non-constant step (value 5). -/
def c1CexFor : ForOp :=
  { lowerBound := 0, upperBound := 1, step := 5, initArgs := [2],
    region := { args := [10, 11], ops := [], termOperands := [11] } }

/-- Counterexample to claim C1 as stated: the bounds are compile-time
constants with a zero-or-negative mathematical difference (-255), yet the
pattern does not erase the loop: the wrapping subtraction in
computeConstDiff yields +1, so SimplifyTrivialLoops falls through and
returns no match. -/
theorem c1_trivial_loop_counterexample :
    sExtValue 8 128 - sExtValue 8 127 ≤ 0
    ∧ mConstant c1CexEnv c1CexFor.lowerBound = some ⟨8, 127⟩
    ∧ mConstant c1CexEnv c1CexFor.upperBound = some ⟨8, 128⟩
    ∧ computeConstDiff c1CexEnv c1CexFor.lowerBound c1CexFor.upperBound = some 1
    ∧ simplifyTrivialLoops c1CexEnv c1CexFor ≠ ForRewrite.erased c1CexFor.initArgs := by
  decide

/-! ### Claim C3: the trip-count difference computation wraps -/

/-- Environment exhibiting the overflow: lower bound (value 0) is the i8
constant -128 (raw bits 128), upper bound (value 1) is the i8 constant 1,
and the step (value 3) is the constant 1. -/
def c3Env : Env := fun v =>
  match v with
  | 0 => VDef.constInt ⟨8, 128⟩
  | 1 => VDef.constInt ⟨8, 1⟩
  | 3 => VDef.constInt ⟨8, 1⟩
  | _ => VDef.other

/-- The loop for i = -128 to 1 step 1 iter(x = 2) yield x, which executes
129 iterations. -/
def c3For : ForOp :=
  { lowerBound := 0, upperBound := 1, step := 3, initArgs := [2],
    region := { args := [10, 11], ops := [], termOperands := [11] } }

/-- Claim C3 evidence: at i8 bounds -128 and 1 the mathematical difference
is 129, but computeConstDiff performs wrapping APInt subtraction and
returns -127 rather than the exact value or unknown; consequently
SimplifyTrivialLoops erases this 129-iteration loop, replacing its result
with the init value.  The spec requires the computation to saturate or
signal unknown, and the pattern's own documentation says it erases loops
known not to iterate, so the wrap is a code bug. -/
theorem c3_const_diff_wraps :
    computeConstDiff c3Env c3For.lowerBound c3For.upperBound = some (-127)
    ∧ sExtValue 8 1 - sExtValue 8 128 = 129
    ∧ simplifyTrivialLoops c3Env c3For = ForRewrite.erased c3For.initArgs := by
  decide

/-! ### Claim C10: multi-iteration empty-loop elimination -/

/-- Claim C10: an scf.for whose computed constant bound difference is
positive, whose constant step is signed-less-than that difference, whose
body block holds only its terminator, and all of whose yielded values are
defined outside the loop, is erased with its results replaced by the
yielded values. -/
theorem c10_empty_multi_iteration_loop (env : Env) (op : ForOp) (d : Int) (s : APIntM)
    (hne : op.lowerBound ≠ op.upperBound)
    (hd : computeConstDiff env op.lowerBound op.upperBound = some d)
    (hpos : 0 < d)
    (hs : mConstant env op.step = some s)
    (hlt : sExtValue s.width s.bits < d)
    (hempty : op.region.ops = [])
    (hout : ∀ v ∈ op.region.termOperands, isDefinedOutsideOfLoop op v = true) :
    simplifyTrivialLoops env op = ForRewrite.erased op.region.termOperands := by
  simp [simplifyTrivialLoops, hne, hd, hs, not_le.mpr hpos, not_le.mpr hlt, hempty,
    List.all_eq_true.mpr hout]

/-- Environment for the C10 witness: bounds 0 and 10, constant step 2. -/
def c10Env : Env := fun v =>
  match v with
  | 0 => VDef.constInt ⟨8, 0⟩
  | 1 => VDef.constInt ⟨8, 10⟩
  | 3 => VDef.constInt ⟨8, 2⟩
  | _ => VDef.other

/-- The loop for i = 0 to 10 step 2 iter(x = 2) with an empty body yielding
the outside value 7. -/
def c10For : ForOp :=
  { lowerBound := 0, upperBound := 1, step := 3, initArgs := [2],
    region := { args := [10, 11], ops := [], termOperands := [7] } }

/-- Witness for c10_empty_multi_iteration_loop at the concrete empty loop:
the loop is erased in favour of the yielded outside value 7. -/
theorem c10_empty_multi_iteration_loop_witness :
    simplifyTrivialLoops c10Env c10For = ForRewrite.erased c10For.region.termOperands :=
  c10_empty_multi_iteration_loop c10Env c10For 10 ⟨8, 2⟩ (by decide) (by decide)
    (by decide) (by decide) (by decide) rfl (by decide)

/-! ### Claim C2: single-iteration scf.for inlining -/

/-- Claim C2: an scf.for with a positive computed constant bound difference
d and a constant step signed-greater-or-equal to d is replaced by its body
inlined into the parent block, under a substitution that maps the induction
variable to the lower bound, each region iter argument to its init operand,
and keeps every other value; the remapped terminator operands become the
replacements of the loop results, leaving no loop wrapper. -/
theorem c2_single_iteration_inlined (env : Env) (op : ForOp) (d : Int) (s : APIntM)
    (iv : Value) (iterArgs : List Value)
    (hargs : op.region.args = iv :: iterArgs)
    (hnodup : op.region.args.Nodup)
    (hne : op.lowerBound ≠ op.upperBound)
    (hd : computeConstDiff env op.lowerBound op.upperBound = some d)
    (hpos : 0 < d)
    (hs : mConstant env op.step = some s)
    (hsge : d ≤ sExtValue s.width s.bits) :
    ∃ f : Value → Value,
      simplifyTrivialLoops env op =
        ForRewrite.inlinedBody (op.region.ops.map (substOp f))
          (op.region.termOperands.map f)
      ∧ f iv = op.lowerBound
      ∧ (∀ (i : Nat) (x y : Value),
          iterArgs.get? i = some x → op.initArgs.get? i = some y → f x = y)
      ∧ (∀ v : Value, v ∉ op.region.args → f v = v) := by
  refine ⟨substOfPairs (op.region.args.zip (op.lowerBound :: op.initArgs)), ?_, ?_, ?_, ?_⟩
  · simp [simplifyTrivialLoops, hne, hd, hs, not_le.mpr hpos, if_pos hsge,
      replaceOpWithRegion]
  · have h0 : op.region.args.get? 0 = some iv := by rw [hargs]; rfl
    exact substOfPairs_get op.region.args (op.lowerBound :: op.initArgs) hnodup 0 iv
      op.lowerBound h0 rfl
  · intro i x y hx hy
    have hx2 : op.region.args.get? (i + 1) = some x := by
      rw [hargs, List.get?_cons_succ]; exact hx
    have hy2 : (op.lowerBound :: op.initArgs).get? (i + 1) = some y := by
      rw [List.get?_cons_succ]; exact hy
    exact substOfPairs_get op.region.args (op.lowerBound :: op.initArgs) hnodup (i + 1)
      x y hx2 hy2
  · intro v hv
    exact substOfPairs_not_mem op.region.args (op.lowerBound :: op.initArgs) v hv

/-- Environment of the scenario for i = 0 to 1 step 1 iter(x = 7): value 0
is the constant 0, value 1 the constant 1 (used as upper bound and step),
value 2 the constant 7. -/
def c2Env : Env := fun v =>
  match v with
  | 0 => VDef.constInt ⟨8, 0⟩
  | 1 => VDef.constInt ⟨8, 1⟩
  | 2 => VDef.constInt ⟨8, 7⟩
  | _ => VDef.other

/-- The loop for i = 0 to 1 step 1 iter(x = 7) with body y = addi(i, x);
yield y, where the induction variable is value 10, the iter argument value
11 and y value 12. -/
def c2For : ForOp :=
  { lowerBound := 0, upperBound := 1, step := 1, initArgs := [2],
    region := { args := [10, 11], ops := [⟨0, [12], [10, 11]⟩], termOperands := [12] } }

/-- Witness for c2_single_iteration_inlined at the concrete loop of the
claim, together with the evaluated outcome: the body becomes the single
operation y = addi(0-value, 7-value) inlined with the loop gone and y as
the replacement of the loop result. -/
theorem c2_single_iteration_inlined_witness :
    (∃ f : Value → Value,
        simplifyTrivialLoops c2Env c2For =
          ForRewrite.inlinedBody (c2For.region.ops.map (substOp f))
            (c2For.region.termOperands.map f)
        ∧ f 10 = c2For.lowerBound
        ∧ (∀ (i : Nat) (x y : Value),
            [11].get? i = some x → c2For.initArgs.get? i = some y → f x = y)
        ∧ (∀ v : Value, v ∉ c2For.region.args → f v = v))
    ∧ simplifyTrivialLoops c2Env c2For = ForRewrite.inlinedBody [⟨0, [12], [0, 2]⟩] [12] :=
  ⟨c2_single_iteration_inlined c2Env c2For 1 ⟨8, 1⟩ 10 [11] rfl (by decide) (by decide)
      (by decide) (by decide) (by decide) (by decide),
    by decide⟩

/-! ### Claim C4: scf.if per-result yield folding -/

theorem zipWith3M_get? (f : α → β → γ → δ) :
    ∀ (as : List α) (bs : List β) (cs : List γ) (i : Nat) (a : α) (b : β) (c : γ),
      as.get? i = some a → bs.get? i = some b → cs.get? i = some c →
      (zipWith3M f as bs cs).get? i = some (f a b c)
  | [], _, _, i, _, _, _, ha, _, _ => by simp at ha
  | _ :: _, [], _, i, _, _, _, _, hb, _ => by simp at hb
  | _ :: _, _ :: _, [], i, _, _, _, _, _, hc => by simp at hc
  | a0 :: as, b0 :: bs, c0 :: cs, 0, a, b, c, ha, hb, hc => by
      obtain rfl : a0 = a := by simpa using ha
      obtain rfl : b0 = b := by simpa using hb
      obtain rfl : c0 = c := by simpa using hc
      rfl
  | a0 :: as, b0 :: bs, c0 :: cs, i + 1, a, b, c, ha, hb, hc => by
      rw [List.get?_cons_succ] at ha hb hc
      exact zipWith3M_get? f as bs cs i a b c ha hb hc

/-- Environment of the scenario if c then yield 9, v else yield 9, v:
value 1 is the condition, value 2 the constant 9 shared by both arms,
value 3 the free value v. -/
def c4Env : Env := fun v =>
  match v with
  | 2 => VDef.constInt ⟨8, 9⟩
  | _ => VDef.other

/-- The scf.if of that scenario, both results in use. -/
def c4If : IfOpM :=
  { condition := 1, thenYields := [2, 3], elseYields := [2, 3],
    resultHasUses := [true, true] }

/-- The same scf.if after ReplaceIfYieldWithConditionOrValue has redirected
every use of its results: no result has uses any more. -/
def c4IfAfter : IfOpM :=
  { condition := 1, thenYields := [2, 3], elseYields := [2, 3],
    resultHasUses := [false, false] }

/-- Claim C4: whenever ReplaceIfYieldWithConditionOrValue succeeds, each
result position with identical then/else yields has its uses replaced by
the common value, each position yielding the literal booleans true/false is
replaced by the condition, and false/true by the xor of the condition with
the constant 1 — independently per position.  In the scenario if c then
yield 9, v else yield 9, v both positions are replaced by the constant-9
value and by v, and RemoveUnusedResults then erases the now fully unused
scf.if, rebuilding a zero-result operation. -/
theorem c4_if_yield_folding (env : Env) (op : IfOpM) (acts : List IfResultAction)
    (h : replaceIfYieldWithConditionOrValue env op = some acts) :
    (∀ (i : Nat) (t f : Value), op.thenYields.get? i = some t →
        op.elseYields.get? i = some f → op.resultHasUses.get? i = some true →
        ((t = f → acts.get? i = some (IfResultAction.replacedBy t))
         ∧ (mBoolConstant env t = some true → mBoolConstant env f = some false →
             acts.get? i = some IfResultAction.replacedByCond)
         ∧ (mBoolConstant env t = some false → mBoolConstant env f = some true →
             acts.get? i = some IfResultAction.replacedByXorCondOne)))
    ∧ replaceIfYieldWithConditionOrValue c4Env c4If =
        some [IfResultAction.replacedBy 2, IfResultAction.replacedBy 3]
    ∧ removeUnusedResults c4IfAfter = some ([], [], [none, none]) := by
  have hacts : acts =
      zipWith3M (ifYieldAction env) op.thenYields op.elseYields op.resultHasUses := by
    unfold replaceIfYieldWithConditionOrValue at h
    split at h
    · simp at h
    · split at h
      · exact (Option.some.injEq _ _ ▸ h).symm
      · simp at h
  refine ⟨fun i t f ht hf hu => ⟨fun htf => ?_, fun hbt hbf => ?_, fun hbt hbf => ?_⟩,
    by decide, by decide⟩
  · rw [hacts, zipWith3M_get? (ifYieldAction env) _ _ _ i t f true ht hf hu]
    simp [ifYieldAction, htf]
  · have htf : t ≠ f := fun e => by rw [e, hbf] at hbt; exact Bool.noConfusion (Option.some.inj hbt)
    rw [hacts, zipWith3M_get? (ifYieldAction env) _ _ _ i t f true ht hf hu]
    simp [ifYieldAction, htf, hbt, hbf]
  · have htf : t ≠ f := fun e => by rw [e, hbf] at hbt; exact Bool.noConfusion (Option.some.inj hbt)
    rw [hacts, zipWith3M_get? (ifYieldAction env) _ _ _ i t f true ht hf hu]
    simp [ifYieldAction, htf, hbt, hbf]

/-- Witness for c4_if_yield_folding at the concrete scenario of the claim. -/
theorem c4_if_yield_folding_witness :
    (∀ (i : Nat) (t f : Value), c4If.thenYields.get? i = some t →
        c4If.elseYields.get? i = some f → c4If.resultHasUses.get? i = some true →
        ((t = f → ([IfResultAction.replacedBy 2, IfResultAction.replacedBy 3].get? i =
            some (IfResultAction.replacedBy t)))
         ∧ (mBoolConstant c4Env t = some true → mBoolConstant c4Env f = some false →
             [IfResultAction.replacedBy 2, IfResultAction.replacedBy 3].get? i =
               some IfResultAction.replacedByCond)
         ∧ (mBoolConstant c4Env t = some false → mBoolConstant c4Env f = some true →
             [IfResultAction.replacedBy 2, IfResultAction.replacedBy 3].get? i =
               some IfResultAction.replacedByXorCondOne)))
    ∧ replaceIfYieldWithConditionOrValue c4Env c4If =
        some [IfResultAction.replacedBy 2, IfResultAction.replacedBy 3]
    ∧ removeUnusedResults c4IfAfter = some ([], [], [none, none]) :=
  c4_if_yield_folding c4Env c4If [IfResultAction.replacedBy 2, IfResultAction.replacedBy 3]
    (by decide)

/-! ### Claim C5: scf.index_switch constant folding -/

theorem findIdxA_eq_some (p : α → Bool) :
    ∀ (l : List α) (i : Nat), (∀ (j : Nat) (b : α), j < i → l.get? j = some b → p b = false) →
      ∀ a : α, l.get? i = some a → p a = true → findIdxA p l = some i
  | [], i, _, a, ha, _ => by simp at ha
  | x :: xs, 0, _, a, ha, hp => by
      obtain rfl : x = a := by simpa using ha
      simp [findIdxA, hp]
  | x :: xs, i + 1, hj, a, ha, hp => by
      have hx : p x = false := hj 0 x (Nat.succ_pos i) rfl
      rw [List.get?_cons_succ] at ha
      have ih := findIdxA_eq_some p xs i
        (fun j b hlt hb => hj (j + 1) b (Nat.succ_lt_succ hlt) (by simpa using hb))
        a ha hp
      simp [findIdxA, hx, ih]

theorem findIdxA_eq_none (p : α → Bool) :
    ∀ l : List α, (∀ a ∈ l, p a = false) → findIdxA p l = none
  | [], _ => rfl
  | x :: xs, h => by
      have ih := findIdxA_eq_none p xs (fun a ha => h a (List.mem_cons_of_mem x ha))
      simp [findIdxA, h x (List.mem_cons_self x xs), ih]

/-- Environment of the scenario index_switch 2: value 0 is the constant
scrutinee 2, value 20 the constant 20 yielded by the second case. -/
def c5Env : Env := fun v =>
  match v with
  | 0 => VDef.constInt ⟨8, 2⟩
  | 20 => VDef.constInt ⟨8, 20⟩
  | _ => VDef.other

/-- index_switch 2 with case 1 yielding value 10, case 2 yielding value 20
and the default region yielding value 30; all regions are empty apart from
their terminator. -/
def c5Switch : IndexSwitchOpM :=
  { arg := 0, cases := [1, 2],
    caseRegions := [⟨[], [], [10]⟩, ⟨[], [], [20]⟩],
    defaultRegion := ⟨[], [], [30]⟩ }

/-- Claim C5: on a constant scrutinee, FoldConstantCase inlines the case
region whose case value equals the constant (the default region when no
case matches) and replaces the operation results with that region's
terminator operands; in particular index_switch 2 over cases 1 and 2
rewrites to the constant-20 value yielded by the second case. -/
theorem c5_fold_constant_case (env : Env) (op : IndexSwitchOpM) (c : Int)
    (h : getConstantIntValue env op.arg = some c) :
    (∀ i : Nat, op.cases.get? i = some c →
        (∀ (j : Nat) (b : Int), j < i → op.cases.get? j = some b → b ≠ c) →
        foldConstantCase env op =
          some ((op.caseRegions.getD i op.defaultRegion).ops,
                (op.caseRegions.getD i op.defaultRegion).termOperands))
    ∧ ((∀ b ∈ op.cases, b ≠ c) →
        foldConstantCase env op = some (op.defaultRegion.ops, op.defaultRegion.termOperands))
    ∧ foldConstantCase c5Env c5Switch = some ([], [20]) := by
  refine ⟨fun i hi hne => ?_, fun hall => ?_, by decide⟩
  · have hfind : findIdxA (fun b => b = c) op.cases = some i := by
      refine findIdxA_eq_some (fun b => b = c) op.cases i
        (fun j b hlt hb => ?_) c hi (by simp)
      simpa using hne j b hlt hb
    simp [foldConstantCase, h, hfind]
  · have hfind : findIdxA (fun b => b = c) op.cases = none := by
      refine findIdxA_eq_none (fun b => b = c) op.cases (fun a ha => ?_)
      simpa using hall a ha
    simp [foldConstantCase, h, hfind]

/-- Witness for c5_fold_constant_case at the concrete switch of the claim:
the scrutinee 2 selects the second case, so the operation is replaced by
the constant-20 value. -/
theorem c5_fold_constant_case_witness :
    foldConstantCase c5Env c5Switch =
      some ((c5Switch.caseRegions.getD 1 c5Switch.defaultRegion).ops,
            (c5Switch.caseRegions.getD 1 c5Switch.defaultRegion).termOperands) :=
  (c5_fold_constant_case c5Env c5Switch 2 (by decide)).1 1 (by decide)
    (fun j b hlt hb => by
      interval_cases j
      have hb1 : (1 : Int) = b := by simpa [c5Switch] using hb
      omega)

/-! ### Claim C6: successor regions of For, Forall and While -/

/-- Counterexample to claim C6 as stated: for scf.forall the body region is
not reported as a successor of itself; from the body only the parent's
results are reachable, and the while body (the after region, region 1) is
likewise not a successor of itself nor reachable from the parent. -/
theorem c6_successor_regions_counterexample :
    RegionSucc.region 0 ∉ forallOpGetSuccessorRegions (RegionPoint.region 0)
    ∧ forallOpGetSuccessorRegions (RegionPoint.region 0) = [RegionSucc.parentResults]
    ∧ RegionSucc.region 1 ∉ whileOpGetSuccessorRegions (RegionPoint.region 1)
    ∧ RegionSucc.region 1 ∉ whileOpGetSuccessorRegions RegionPoint.parent := by
  decide

/-- Claim C6 (amended): scf.for reports the body region and the results as
successors from every predecessor point, so its body is reachable both from
the parent and from itself; scf.while branches from the parent and from the
after region to the before region, and from the before region to the
results or the after region (a loop through the two regions); scf.forall
branches from the parent into the body and from the body only to the
results, with no loop back-edge. -/
theorem c6_successor_regions_amended :
    (∀ p : RegionPoint,
      forOpGetSuccessorRegions p = [RegionSucc.region 0, RegionSucc.parentResults])
    ∧ forallOpGetSuccessorRegions RegionPoint.parent = [RegionSucc.region 0]
    ∧ (∀ i : Nat,
        forallOpGetSuccessorRegions (RegionPoint.region i) = [RegionSucc.parentResults])
    ∧ whileOpGetSuccessorRegions RegionPoint.parent = [RegionSucc.region 0]
    ∧ whileOpGetSuccessorRegions (RegionPoint.region 1) = [RegionSucc.region 0]
    ∧ whileOpGetSuccessorRegions (RegionPoint.region 0) =
        [RegionSucc.parentResults, RegionSucc.region 1] :=
  ⟨fun _ => rfl, rfl, fun _ => rfl, rfl, rfl, rfl⟩

/-! ### Claim C7: nested-if collapse -/

theorem processNestedYields_none (inner : InnerIf) (dIT : Value → Bool) (ey : List Value) :
    ∀ (ty : List Value) (i0 k : Nat) (t : Value),
      ty.get? k = some t → inner.results.contains t = true →
      inner.elseYield.getD ((findIdxA (fun r => r = t) inner.results).getD 0) 0 ≠
        ey.getD (i0 + k) 0 →
      processNestedYields inner dIT ey ty i0 = none
  | [], _, k, _, ht, _, _ => by simp at ht
  | t0 :: ts, i0, 0, t, ht, hc, hm => by
      obtain rfl : t0 = t := by simpa using ht
      simp only [processNestedYields, hc, if_true]
      rw [if_neg (by simpa using hm)]
  | t0 :: ts, i0, k + 1, t, ht, hc, hm => by
      rw [List.get?_cons_succ] at ht
      have ih := processNestedYields_none inner dIT ey ts (i0 + 1) k t ht hc
        (by rw [Nat.add_right_comm i0 1 k]; exact hm)
      simp only [processNestedYields]
      by_cases hc0 : inner.results.contains t0 = true
      · simp only [hc0, if_true]
        by_cases hm0 : inner.elseYield.getD
            ((findIdxA (fun r => r = t0) inner.results).getD 0) 0 = ey.getD i0 0
        · rw [if_pos hm0, ih]
        · rw [if_neg hm0]
      · simp only [Bool.not_eq_true] at hc0
        simp only [hc0, Bool.false_eq_true, if_false]
        by_cases hd0 : dIT t0 = true
        · rw [if_pos hd0]
        · rw [if_neg hd0, ih]

theorem processNestedYields_spec (inner : InnerIf) (dIT : Value → Bool) (ey : List Value) :
    ∀ (ty : List Value) (i0 : Nat) (ys : List Value) (sels : List Nat),
      processNestedYields inner dIT ey ty i0 = some (ys, sels) →
      ys.length = ty.length
      ∧ (∀ m ∈ sels, i0 ≤ m)
      ∧ (∀ (k : Nat) (t : Value), ty.get? k = some t →
          (inner.results.contains t = false →
            ys.get? k = some t ∧ (i0 + k) ∈ sels ∧ dIT t = false)
          ∧ (inner.results.contains t = true →
            ys.get? k = some (inner.thenYield.getD
              ((findIdxA (fun r => r = t) inner.results).getD 0) 0)
            ∧ (i0 + k) ∉ sels
            ∧ inner.elseYield.getD ((findIdxA (fun r => r = t) inner.results).getD 0) 0
                = ey.getD (i0 + k) 0))
  | [], i0, ys, sels, h => by
      simp only [processNestedYields, Option.some.injEq, Prod.mk.injEq] at h
      obtain ⟨rfl, rfl⟩ := h
      exact ⟨rfl, by simp, fun k t ht => by simp at ht⟩
  | t0 :: ts, i0, ys, sels, h => by
      simp only [processNestedYields] at h
      by_cases hc0 : inner.results.contains t0 = true
      · rw [if_pos hc0] at h
        by_cases hm0 : inner.elseYield.getD
            ((findIdxA (fun r => r = t0) inner.results).getD 0) 0 = ey.getD i0 0
        · rw [if_pos hm0] at h
          cases hrec : processNestedYields inner dIT ey ts (i0 + 1) with
          | none => rw [hrec] at h; exact absurd h (by simp)
          | some p =>
              obtain ⟨ys1, sel1⟩ := p
              rw [hrec] at h
              simp only [Option.some.injEq, Prod.mk.injEq] at h
              obtain ⟨rfl, rfl⟩ := h
              obtain ⟨hlen, hbound, hpos⟩ :=
                processNestedYields_spec inner dIT ey ts (i0 + 1) ys1 sel1 hrec
              refine ⟨by simp [hlen], fun m hm => le_trans (Nat.le_succ i0) (hbound m hm),
                fun k t ht => ?_⟩
              cases k with
              | zero =>
                  obtain rfl : t0 = t := by simpa using ht
                  refine ⟨fun hcf => absurd (hcf.symm.trans hc0) Bool.false_ne_true, fun _ => ?_⟩
                  refine ⟨rfl, fun hmem => ?_, by simpa using hm0⟩
                  exact absurd (hbound _ hmem) (by omega)
              | succ k =>
                  rw [List.get?_cons_succ] at ht
                  have hk := hpos k t ht
                  refine ⟨fun hcf => ?_, fun hct => ?_⟩
                  · obtain ⟨hy, hmem, hdit⟩ := hk.1 hcf
                    exact ⟨by simpa using hy, by rw [show i0 + (k + 1) = i0 + 1 + k by omega]; exact hmem, hdit⟩
                  · obtain ⟨hy, hmem, hmatch⟩ := hk.2 hct
                    exact ⟨by simpa using hy,
                      by rw [show i0 + (k + 1) = i0 + 1 + k by omega]; exact hmem,
                      by rw [show i0 + (k + 1) = i0 + 1 + k by omega]; exact hmatch⟩
        · rw [if_neg hm0] at h
          exact absurd h (by simp)
      · simp only [Bool.not_eq_true] at hc0
        rw [hc0] at h
        simp only [Bool.false_eq_true, if_false] at h
        by_cases hd0 : dIT t0 = true
        · rw [if_pos hd0] at h
          exact absurd h (by simp)
        · rw [if_neg hd0] at h
          cases hrec : processNestedYields inner dIT ey ts (i0 + 1) with
          | none => rw [hrec] at h; exact absurd h (by simp)
          | some p =>
              obtain ⟨ys1, sel1⟩ := p
              rw [hrec] at h
              simp only [Option.some.injEq, Prod.mk.injEq] at h
              obtain ⟨rfl, rfl⟩ := h
              obtain ⟨hlen, hbound, hpos⟩ :=
                processNestedYields_spec inner dIT ey ts (i0 + 1) ys1 sel1 hrec
              refine ⟨by simp [hlen], fun m hm => ?_, fun k t ht => ?_⟩
              · rcases List.mem_cons.mp hm with rfl | hm1
                · exact le_refl m
                · exact le_trans (Nat.le_succ i0) (hbound m hm1)
              cases k with
              | zero =>
                  obtain rfl : t0 = t := by simpa using ht
                  refine ⟨fun _ => ⟨rfl, by simp, Bool.not_eq_true _ ▸ hd0⟩,
                    fun hct => absurd (hc0.symm.trans hct) Bool.false_ne_true⟩
              | succ k =>
                  rw [List.get?_cons_succ] at ht
                  have hk := hpos k t ht
                  refine ⟨fun hcf => ?_, fun hct => ?_⟩
                  · obtain ⟨hy, hmem, hdit⟩ := hk.1 hcf
                    refine ⟨by simpa using hy, List.mem_cons_of_mem i0
                      (by rw [show i0 + (k + 1) = i0 + 1 + k by omega]; exact hmem), hdit⟩
                  · obtain ⟨hy, hmem, hmatch⟩ := hk.2 hct
                    refine ⟨by simpa using hy, fun hin => ?_,
                      by rw [show i0 + (k + 1) = i0 + 1 + k by omega]; exact hmatch⟩
                    rcases List.mem_cons.mp hin with heq | hin1
                    · omega
                    · exact hmem (by rw [show i0 + 1 + k = i0 + (k + 1) by omega]; exact hin1)

theorem processNestedYields_isSome (inner : InnerIf) (dIT : Value → Bool) (ey : List Value) :
    ∀ (ty : List Value) (i0 : Nat),
      (∀ (k : Nat) (t : Value), ty.get? k = some t →
        (inner.results.contains t = true →
          inner.elseYield.getD ((findIdxA (fun r => r = t) inner.results).getD 0) 0
            = ey.getD (i0 + k) 0)
        ∧ (inner.results.contains t = false → dIT t = false)) →
      ∃ ys sels, processNestedYields inner dIT ey ty i0 = some (ys, sels)
  | [], _, _ => ⟨[], [], rfl⟩
  | t0 :: ts, i0, h => by
      obtain ⟨ys1, sel1, hrec⟩ := processNestedYields_isSome inner dIT ey ts (i0 + 1)
        (fun k t ht => by
          have := h (k + 1) t (by simpa using ht)
          rwa [show i0 + (k + 1) = i0 + 1 + k by omega] at this)
      have h0 := h 0 t0 rfl
      simp only [processNestedYields]
      by_cases hc0 : inner.results.contains t0 = true
      · rw [if_pos hc0, if_pos (by simpa using h0.1 hc0), hrec]
        exact ⟨_, _, rfl⟩
      · simp only [Bool.not_eq_true] at hc0
        rw [hc0]
        simp only [Bool.false_eq_true, if_false]
        rw [if_neg (by simp [h0.2 hc0]), hrec]
        exact ⟨_, _, rfl⟩

theorem getD_of_get? (l : List α) (i : Nat) (a d : α) (h : l.get? i = some a) :
    l.getD i d = a := by
  rw [List.get?_eq_getElem?] at h
  simp [List.getD, h]

theorem get?_range_of_lt (n i : Nat) (h : i < n) : (List.range n).get? i = some i := by
  rw [List.get?_eq_getElem?]
  simp [List.getElem?_range h]

theorem get?_map_of_get? (f : α → β) (l : List α) (i : Nat) (a : α)
    (h : l.get? i = some a) : (l.map f).get? i = some (f a) := by
  rw [List.get?_eq_getElem?] at h ⊢
  simp [List.getElem?_map, h]

/-- Claim C7: for an outer scf.if whose then block holds exactly a nested
scf.if and whose else blocks (outer and inner, when present) hold only their
terminator, CombineNestedIfs fuses the pair into a single if guarded by the
andi of the two conditions whenever every outer then-yield operand produced
by the nested if has a nested else-yield agreeing with the outer else-yield;
outer results whose then-yield is not produced by the nested if (hence
defined outside the outer if) are replaced by an arith.select on the outer
condition alone, the others by the corresponding result of the fused if.
When some outer then-yield comes from the nested if but the nested
else-yield differs from the outer else-yield, the pattern refuses to
rewrite. -/
theorem c7_combine_nested_ifs (outer : OuterIf) (inner : InnerIf)
    (hthen : outer.thenOps = [IfBodyOp.nested inner])
    (helse : outer.hasElse = true → outer.elseOps = [])
    (hinner : inner.hasElse = true → inner.elseOps = [])
    (hlen : outer.thenYield.length = outer.numResults) :
    ((∀ (k : Nat) (t : Value), outer.thenYield.get? k = some t →
        inner.results.contains t = true →
        inner.elseYield.getD ((findIdxA (fun r => r = t) inner.results).getD 0) 0
          = (if outer.hasElse then outer.elseYield else []).getD k 0) →
      ∃ out : NestedIfOut, combineNestedIfs outer = some out
        ∧ out.cond1 = outer.condition
        ∧ out.cond2 = inner.condition
        ∧ out.thenOps = inner.thenOps
        ∧ out.elseYield = (if outer.hasElse then outer.elseYield else [])
        ∧ out.replacements.length = outer.numResults
        ∧ (∀ (i : Nat) (t : Value), outer.thenYield.get? i = some t →
            inner.results.contains t = false →
            out.replacements.get? i = some (RepVal.select outer.condition t
              ((if outer.hasElse then outer.elseYield else []).getD i 0)))
        ∧ (∀ (i : Nat) (t : Value), outer.thenYield.get? i = some t →
            inner.results.contains t = true →
            out.replacements.get? i = some (RepVal.ifResult i)))
    ∧ (∀ (k : Nat) (t : Value), outer.thenYield.get? k = some t →
        inner.results.contains t = true →
        inner.elseYield.getD ((findIdxA (fun r => r = t) inner.results).getD 0) 0 ≠
          (if outer.hasElse then outer.elseYield else []).getD k 0 →
        combineNestedIfs outer = none) := by
  have h1 : ¬(outer.hasElse = true ∧ outer.elseOps ≠ []) :=
    fun h => h.2 (helse h.1)
  have h2 : ¬(inner.hasElse = true ∧ inner.elseOps ≠ []) :=
    fun h => h.2 (hinner h.1)
  have hdit : ∀ t : Value, definedInThenRegion outer t = inner.results.contains t := by
    intro t
    simp [definedInThenRegion, hthen]
  constructor
  · intro hcompat
    obtain ⟨ys, sels, hproc⟩ := processNestedYields_isSome inner
      (definedInThenRegion outer) (if outer.hasElse then outer.elseYield else [])
      outer.thenYield 0
      (fun k t ht => ⟨fun hct => by rw [Nat.zero_add]; exact hcompat k t ht hct,
        fun hcf => by rw [hdit]; exact hcf⟩)
    obtain ⟨hyslen, hbound, hpos⟩ := processNestedYields_spec inner
      (definedInThenRegion outer) (if outer.hasElse then outer.elseYield else [])
      outer.thenYield 0 ys sels hproc
    refine ⟨{ cond1 := outer.condition, cond2 := inner.condition,
              thenOps := inner.thenOps, thenYield := ys,
              elseYield := if outer.hasElse then outer.elseYield else [],
              replacements := (List.range outer.numResults).map fun i =>
                if sels.contains i then
                  RepVal.select outer.condition (ys.getD i 0)
                    ((if outer.hasElse then outer.elseYield else []).getD i 0)
                else RepVal.ifResult i }, ?_, rfl, rfl, rfl, rfl, ?_, ?_, ?_⟩
    · simp only [combineNestedIfs, hthen]
      rw [if_neg h1, if_neg h2, hproc]
    · simp
    · intro i t ht hcf
      have hi : i < outer.numResults := by
        rw [← hlen]
        obtain ⟨hi0, -⟩ := List.get?_eq_some.mp ht
        exact hi0
      obtain ⟨hy, hmem, -⟩ := (hpos i t ht).1 hcf
      rw [Nat.zero_add] at hmem
      have hmap := get?_map_of_get?
        (fun i => if sels.contains i then
          RepVal.select outer.condition (ys.getD i 0)
            ((if outer.hasElse then outer.elseYield else []).getD i 0)
          else RepVal.ifResult i)
        (List.range outer.numResults) i i (get?_range_of_lt _ _ hi)
      rw [hmap]
      rw [List.get?_eq_getElem?] at hy
      simp [hmem, hy]
    · intro i t ht hct
      have hi : i < outer.numResults := by
        rw [← hlen]
        obtain ⟨hi0, -⟩ := List.get?_eq_some.mp ht
        exact hi0
      obtain ⟨hy, hmem, -⟩ := (hpos i t ht).2 hct
      rw [Nat.zero_add] at hmem
      have hmap := get?_map_of_get?
        (fun i => if sels.contains i then
          RepVal.select outer.condition (ys.getD i 0)
            ((if outer.hasElse then outer.elseYield else []).getD i 0)
          else RepVal.ifResult i)
        (List.range outer.numResults) i i (get?_range_of_lt _ _ hi)
      rw [hmap]
      simp [hmem]
  · intro k t ht hct hmm
    have hnone := processNestedYields_none inner (definedInThenRegion outer)
      (if outer.hasElse then outer.elseYield else []) outer.thenYield 0 k t ht hct
      (by rw [Nat.zero_add]; exact hmm)
    simp only [combineNestedIfs, hthen]
    rw [if_neg h1, if_neg h2, hnone]

/-- The nested if of the C7 witness: condition value 2, one result
value 50, a then body operation producing value 60, then-yield value 3,
and an else block yielding value 4. -/
def c7Inner : InnerIf :=
  { condition := 2, results := [50], thenOps := [⟨1, [60], [2]⟩], thenYield := [3],
    hasElse := true, elseOps := [], elseYield := [4] }

/-- The outer if of the C7 witness: condition value 1, two results, its
then block holding exactly the nested if, then-yield [inner result 50,
outside value 30], else-yield [4, 31]; position 0 forwards the inner if
(with matching else-yields 4 = 4), position 1 yields an outside value. -/
def c7Outer : OuterIf :=
  { condition := 1, numResults := 2, thenOps := [IfBodyOp.nested c7Inner],
    thenYield := [50, 30], hasElse := true, elseOps := [], elseYield := [4, 31] }

/-- Witness for c7_combine_nested_ifs at the concrete nested pair, plus the
evaluated outcome: the fused if is guarded by andi of conditions 1 and 2,
and the outside-yield position 1 is replaced by select(1, 30, 31). -/
theorem c7_combine_nested_ifs_witness :
    (∃ out : NestedIfOut, combineNestedIfs c7Outer = some out
      ∧ out.cond1 = c7Outer.condition
      ∧ out.cond2 = c7Inner.condition
      ∧ out.thenOps = c7Inner.thenOps
      ∧ out.elseYield = (if c7Outer.hasElse then c7Outer.elseYield else [])
      ∧ out.replacements.length = c7Outer.numResults
      ∧ (∀ (i : Nat) (t : Value), c7Outer.thenYield.get? i = some t →
          c7Inner.results.contains t = false →
          out.replacements.get? i = some (RepVal.select c7Outer.condition t
            ((if c7Outer.hasElse then c7Outer.elseYield else []).getD i 0)))
      ∧ (∀ (i : Nat) (t : Value), c7Outer.thenYield.get? i = some t →
          c7Inner.results.contains t = true →
          out.replacements.get? i = some (RepVal.ifResult i)))
    ∧ combineNestedIfs c7Outer =
        some ⟨1, 2, c7Inner.thenOps, [3, 30], [4, 31],
          [RepVal.ifResult 0, RepVal.select 1 30 31]⟩ :=
  ⟨(c7_combine_nested_ifs c7Outer c7Inner rfl (fun _ => rfl) (fun _ => rfl) rfl).1
      (fun k t ht hct => by
        rcases k with _ | _ | k
        · obtain rfl : (50 : Value) = t := by simpa [c7Outer] using ht
          decide
        · obtain rfl : (30 : Value) = t := by simpa [c7Outer] using ht
          exact absurd hct (by decide)
        · simp [c7Outer] at ht),
    by decide⟩

/-! ### Claim C8: (init, yielded) pair memo of the iter_args folder -/

theorem alookup_iterMemoAfter_of_none :
    ∀ (xs : List IterEntry) (memo : IterMemo) (p : Value × Value),
      alookup p memo = none →
      (∀ e ∈ xs, forwardedEntry e = false → (e.init, e.yielded) ≠ p) →
      alookup p (iterMemoAfter xs memo) = none
  | [], _, _, hm, _ => hm
  | e :: es, memo, p, hm, hx => by
      have hes : ∀ a ∈ es, forwardedEntry a = false → (a.init, a.yielded) ≠ p :=
        fun a ha => hx a (List.mem_cons_of_mem e ha)
      simp only [iterMemoAfter]
      by_cases hf : forwardedEntry e = true
      · rw [if_pos hf]
        exact alookup_iterMemoAfter_of_none es memo p hm hes
      · rw [if_neg hf]
        cases hq : alookup (e.init, e.yielded) memo with
        | some w => exact alookup_iterMemoAfter_of_none es memo p hm hes
        | none =>
            have hne : (e.init, e.yielded) ≠ p :=
              hx e (List.mem_cons_self e es) (Bool.not_eq_true _ ▸ hf)
            refine alookup_iterMemoAfter_of_none es _ p ?_ hes
            rw [alookup_cons, if_neg hne]
            exact hm

theorem alookup_iterMemoAfter_of_some :
    ∀ (xs : List IterEntry) (memo : IterMemo) (p : Value × Value) (v : Value × Value),
      alookup p memo = some v → alookup p (iterMemoAfter xs memo) = some v
  | [], _, _, _, hm => hm
  | e :: es, memo, p, v, hm => by
      simp only [iterMemoAfter]
      by_cases hf : forwardedEntry e = true
      · rw [if_pos hf]
        exact alookup_iterMemoAfter_of_some es memo p v hm
      · rw [if_neg hf]
        cases hq : alookup (e.init, e.yielded) memo with
        | some w => exact alookup_iterMemoAfter_of_some es memo p v hm
        | none =>
            have hne : (e.init, e.yielded) ≠ p := fun he => by
              rw [he, hm] at hq
              exact Option.noConfusion hq
            refine alookup_iterMemoAfter_of_some es _ p v ?_
            rw [alookup_cons, if_neg hne]
            exact hm

theorem iterFold_cons_forwarded (e : IterEntry) (es : List IterEntry) (memo : IterMemo)
    (hf : forwardedEntry e = true) :
    iterFold (e :: es) memo = IterAction.forwardedInit e.init :: iterFold es memo := by
  simp only [iterFold, hf, if_true]

theorem iterFold_cons_dup (e : IterEntry) (es : List IterEntry) (memo : IterMemo)
    (w : Value × Value) (hf : forwardedEntry e = false)
    (hm : alookup (e.init, e.yielded) memo = some w) :
    iterFold (e :: es) memo = IterAction.duplicate w.1 w.2 :: iterFold es memo := by
  simp only [iterFold, hf, Bool.false_eq_true, if_false, hm]

theorem iterFold_cons_kept (e : IterEntry) (es : List IterEntry) (memo : IterMemo)
    (hf : forwardedEntry e = false) (hm : alookup (e.init, e.yielded) memo = none) :
    iterFold (e :: es) memo =
      IterAction.kept :: iterFold es (((e.init, e.yielded), (e.arg, e.result)) :: memo) := by
  simp only [iterFold, hf, Bool.false_eq_true, if_false, hm]

theorem iterMemoAfter_cons_forwarded (e : IterEntry) (es : List IterEntry)
    (memo : IterMemo) (hf : forwardedEntry e = true) :
    iterMemoAfter (e :: es) memo = iterMemoAfter es memo := by
  simp only [iterMemoAfter, hf, if_true]

theorem iterMemoAfter_cons_dup (e : IterEntry) (es : List IterEntry) (memo : IterMemo)
    (w : Value × Value) (hf : forwardedEntry e = false)
    (hm : alookup (e.init, e.yielded) memo = some w) :
    iterMemoAfter (e :: es) memo = iterMemoAfter es memo := by
  simp only [iterMemoAfter, hf, Bool.false_eq_true, if_false, hm]

theorem iterMemoAfter_cons_kept (e : IterEntry) (es : List IterEntry) (memo : IterMemo)
    (hf : forwardedEntry e = false) (hm : alookup (e.init, e.yielded) memo = none) :
    iterMemoAfter (e :: es) memo =
      iterMemoAfter es (((e.init, e.yielded), (e.arg, e.result)) :: memo) := by
  simp only [iterMemoAfter, hf, Bool.false_eq_true, if_false, hm]

theorem iterFold_append :
    ∀ (xs ys : List IterEntry) (memo : IterMemo),
      iterFold (xs ++ ys) memo = iterFold xs memo ++ iterFold ys (iterMemoAfter xs memo)
  | [], _, _ => rfl
  | e :: es, ys, memo => by
      rw [List.cons_append]
      by_cases hf : forwardedEntry e = true
      · rw [iterFold_cons_forwarded e (es ++ ys) memo hf, iterFold_cons_forwarded e es memo hf,
          iterMemoAfter_cons_forwarded e es memo hf, iterFold_append es ys memo,
          List.cons_append]
      · rw [Bool.not_eq_true] at hf
        cases hq : alookup (e.init, e.yielded) memo with
        | some w =>
            rw [iterFold_cons_dup e (es ++ ys) memo w hf hq,
              iterFold_cons_dup e es memo w hf hq,
              iterMemoAfter_cons_dup e es memo w hf hq,
              iterFold_append es ys memo, List.cons_append]
        | none =>
            rw [iterFold_cons_kept e (es ++ ys) memo hf hq,
              iterFold_cons_kept e es memo hf hq,
              iterMemoAfter_cons_kept e es memo hf hq,
              iterFold_append es ys _, List.cons_append]

theorem iterFold_get?_duplicate :
    ∀ (es : List IterEntry) (memo : IterMemo) (k : Nat) (e : IterEntry) (a r : Value),
      es.get? k = some e → forwardedEntry e = false →
      alookup (e.init, e.yielded) memo = some (a, r) →
      (iterFold es memo).get? k = some (IterAction.duplicate a r)
  | [], _, k, _, _, _, he, _, _ => by simp at he
  | e0 :: es, memo, 0, e, a, r, he, hf, hm => by
      obtain rfl : e0 = e := by simpa using he
      simp only [iterFold, hf, Bool.false_eq_true, if_false, hm]
      rfl
  | e0 :: es, memo, k + 1, e, a, r, he, hf, hm => by
      rw [List.get?_cons_succ] at he
      simp only [iterFold]
      by_cases hf0 : forwardedEntry e0 = true
      · rw [if_pos hf0, List.get?_cons_succ]
        exact iterFold_get?_duplicate es memo k e a r he hf hm
      · rw [if_neg hf0]
        cases hq : alookup (e0.init, e0.yielded) memo with
        | some w =>
            rw [List.get?_cons_succ]
            exact iterFold_get?_duplicate es memo k e a r he hf hm
        | none =>
            rw [List.get?_cons_succ]
            refine iterFold_get?_duplicate es _ k e a r he hf ?_
            have hne : (e0.init, e0.yielded) ≠ (e.init, e.yielded) := fun hpq => by
              rw [hpq, hm] at hq
              exact Option.noConfusion hq
            rw [alookup_cons, if_neg hne]
            exact hm

theorem iterFold_length :
    ∀ (es : List IterEntry) (memo : IterMemo), (iterFold es memo).length = es.length
  | [], _ => rfl
  | e :: es, memo => by
      simp only [iterFold]
      by_cases hf : forwardedEntry e = true
      · rw [if_pos hf]
        simp [iterFold_length es memo]
      · rw [if_neg hf]
        cases alookup (e.init, e.yielded) memo with
        | some w => simp [iterFold_length es memo]
        | none => simp [iterFold_length es _]

/-- Claim C8 (amended): the (init, yielded) pair memo lives in the scf.for
iter_args folder (ForOpIterArgsFolder), not in the scf.while pruning: when
two non-forwarded iter_arg positions carry the identical (init, yielded)
pair and the earlier one is the first such position, the later one is
eliminated in the same single pass as a duplicate, with its argument and
result uses redirected to the earlier surviving argument and result, and
the pattern as a whole succeeds. -/
theorem c8_iter_args_pair_memo (pre mid post : List IterEntry) (e₁ e₂ : IterEntry)
    (h1 : forwardedEntry e₁ = false) (h2 : forwardedEntry e₂ = false)
    (hpair : (e₂.init, e₂.yielded) = (e₁.init, e₁.yielded))
    (hpre : ∀ e ∈ pre, forwardedEntry e = false →
      (e.init, e.yielded) ≠ (e₁.init, e₁.yielded)) :
    (iterFold (pre ++ e₁ :: (mid ++ e₂ :: post)) []).get? (pre.length + (mid.length + 1)) =
      some (IterAction.duplicate e₁.arg e₁.result)
    ∧ ∃ acts : List IterAction,
        forOpIterArgsFolder (pre ++ e₁ :: (mid ++ e₂ :: post)) = some acts
        ∧ acts.get? (pre.length + (mid.length + 1)) =
            some (IterAction.duplicate e₁.arg e₁.result) := by
  have hM1 : alookup (e₁.init, e₁.yielded) (iterMemoAfter pre []) = none :=
    alookup_iterMemoAfter_of_none pre [] _ rfl hpre
  have hfirst : (iterFold (pre ++ e₁ :: (mid ++ e₂ :: post)) []).get?
      (pre.length + (mid.length + 1)) = some (IterAction.duplicate e₁.arg e₁.result) := by
    rw [iterFold_append pre (e₁ :: (mid ++ e₂ :: post)) []]
    rw [List.get?_append_right (by rw [iterFold_length]; omega)]
    rw [iterFold_length]
    have hidx : pre.length + (mid.length + 1) - pre.length = mid.length + 1 := by omega
    rw [hidx]
    simp only [iterFold, h1, Bool.false_eq_true, if_false, hM1]
    rw [List.get?_cons_succ]
    refine iterFold_get?_duplicate (mid ++ e₂ :: post) _ mid.length e₂ e₁.arg e₁.result
      ?_ h2 ?_
    · rw [List.get?_append_right (le_refl mid.length)]
      simp
    · rw [hpair, alookup_cons, if_pos rfl]
  refine ⟨hfirst, iterFold (pre ++ e₁ :: (mid ++ e₂ :: post)) [], ?_, hfirst⟩
  have hmem := List.get?_mem hfirst
  simp only [forOpIterArgsFolder]
  rw [if_neg]
  · intro hc
    have := List.all_eq_true.mp hc _ hmem
    simp at this

/-- First iter_arg position of the C8 witness: init value 1, region
argument 2, result 3, yielded value 4, both in use. -/
def c8e1 : IterEntry := ⟨1, 2, 3, 4, false, false⟩

/-- Second iter_arg position of the C8 witness: identical (init, yielded)
pair (1, 4) but its own argument 5 and result 6. -/
def c8e2 : IterEntry := ⟨1, 5, 6, 4, false, false⟩

/-- Witness for c8_iter_args_pair_memo at a two-argument loop whose
positions share the pair (init 1, yielded 4): the second position becomes a
duplicate of the first, redirecting to argument 2 and result 3. -/
theorem c8_iter_args_pair_memo_witness :
    (iterFold [c8e1, c8e2] []).get? 1 = some (IterAction.duplicate 2 3)
    ∧ ∃ acts : List IterAction,
        forOpIterArgsFolder [c8e1, c8e2] = some acts
        ∧ acts.get? 1 = some (IterAction.duplicate 2 3) :=
  c8_iter_args_pair_memo [] [] [] c8e1 c8e2 (by decide) (by decide) (by decide)
    (fun e he => absurd he (List.not_mem_nil e))

/-- The scf.while of the C8 counterexample: two iteration arguments with
the identical (init, yielded) pair (1, 6), where the yielded value 6 is
neither the init value nor an after-block argument. -/
def c8While : WhileOpM :=
  { inits := [1, 1], beforeArgs := [2, 3], condArgs := [7, 8],
    afterArgs := [4, 5], yields := [6, 6] }

/-- Counterexample to claim C8 as stated: the scf.while invariant-argument
pruning has no (init, yielded) pair memo — on a while loop whose two
iteration arguments carry the identical (init, yielded) pair the pattern
returns match failure and eliminates neither argument. -/
theorem c8_while_no_pair_memo_counterexample :
    (c8While.inits.getD 0 0, c8While.yields.getD 0 0) =
      (c8While.inits.getD 1 0, c8While.yields.getD 1 0)
    ∧ removeLoopInvariantArgsFromBeforeBlock c8While = none := by
  decide

/-! ### Claim C9: nested parallel-loop fusion refusal -/

/-- Claim C9: MergeNestedParallelLoops returns match failure whenever any of
the inner loop's lower bounds, upper bounds or steps is an induction
variable of the outer loop; and whenever it does fuse, no inner bound or
step references an outer induction variable, neither loop carries
reductions (init values), and the fused bounds and steps are the
concatenations of the outer and inner ones. -/
theorem c9_merge_nested_parallel (outer : POuterLoop) (inner : PLoop)
    (innerOps : List Opn)
    (hbody : outer.bodyOps = [PBodyOp.nestedParallel inner innerOps]) :
    ((∃ v : Value, v ∈ outer.loop.bodyArgs ∧
        (v ∈ inner.lowerBound ∨ v ∈ inner.upperBound ∨ v ∈ inner.step)) →
      mergeNestedParallelLoops outer = none)
    ∧ (∀ res, mergeNestedParallelLoops outer = some res →
        (∀ v ∈ outer.loop.bodyArgs,
          v ∉ inner.lowerBound ∧ v ∉ inner.upperBound ∧ v ∉ inner.step)
        ∧ outer.loop.initVals = [] ∧ inner.initVals = []
        ∧ res = (outer.loop.lowerBound ++ inner.lowerBound,
                 outer.loop.upperBound ++ inner.upperBound,
                 outer.loop.step ++ inner.step)) := by
  constructor
  · rintro ⟨v, hv, hmem⟩
    have hany : (outer.loop.bodyArgs.any fun v =>
        inner.lowerBound.contains v || inner.upperBound.contains v ||
          inner.step.contains v) = true := by
      refine List.any_eq_true.mpr ⟨v, hv, ?_⟩
      rcases hmem with h | h | h <;> simp [h]
    simp only [mergeNestedParallelLoops, hbody]
    rw [if_pos hany]
  · intro res h
    simp only [mergeNestedParallelLoops, hbody] at h
    by_cases hany : (outer.loop.bodyArgs.any fun v =>
        inner.lowerBound.contains v || inner.upperBound.contains v ||
          inner.step.contains v) = true
    · rw [if_pos hany] at h
      exact absurd h (by simp)
    · rw [if_neg hany] at h
      by_cases hinit : (!outer.loop.initVals.isEmpty || !inner.initVals.isEmpty) = true
      · rw [if_pos hinit] at h
        exact absurd h (by simp)
      · rw [if_neg hinit] at h
        have hres := (Option.some.injEq _ _ ▸ h).symm
        simp only [Bool.or_eq_true, not_or, Bool.not_eq_true, Bool.not_eq_false] at hinit
        obtain ⟨ho, hi⟩ := hinit
        refine ⟨fun v hv => ?_, List.isEmpty_iff.mp (by simpa using ho),
          List.isEmpty_iff.mp (by simpa using hi), hres⟩
        have hnot := fun hc => hany (List.any_eq_true.mpr ⟨v, hv, hc⟩)
        refine ⟨fun hm => hnot (by simp [hm]), fun hm => hnot (by simp [hm]),
          fun hm => hnot (by simp [hm])⟩

/-- The inner parallel loop of the C9 witness: bounds and step values 100,
101, 102, no reductions, induction variable 110. -/
def c9Inner : PLoop := ⟨[100], [101], [102], [], [110]⟩

/-- The outer parallel loop of the C9 witness: bounds and step values 200,
201, 202, no reductions, induction variable 210, its body holding exactly
the inner loop. -/
def c9Outer : POuterLoop := ⟨⟨[200], [201], [202], [], [210]⟩,
  [PBodyOp.nestedParallel c9Inner []]⟩

/-- The inner loop of the C9 counterpart whose lower bound is the outer
induction variable 210. -/
def c9InnerBad : PLoop := ⟨[210], [101], [102], [], [110]⟩

/-- The outer loop whose nested loop's lower bound references the outer
induction variable. -/
def c9OuterBad : POuterLoop := ⟨⟨[200], [201], [202], [], [210]⟩,
  [PBodyOp.nestedParallel c9InnerBad []]⟩

/-- Witness for c9_merge_nested_parallel: fusion is refused when the inner
lower bound is the outer induction variable 210, and on independent loops
the fused bounds are the concatenations. -/
theorem c9_merge_nested_parallel_witness :
    mergeNestedParallelLoops c9OuterBad = none
    ∧ mergeNestedParallelLoops c9Outer = some ([200, 100], [201, 101], [202, 102]) :=
  ⟨(c9_merge_nested_parallel c9OuterBad c9InnerBad [] rfl).1
      ⟨210, by decide, Or.inl (by decide)⟩,
    by decide⟩
